import Mathlib

/-!
Verification of the ASCII-art engine core (`src/ascii_engine.c`).

This file gives a shallow embedding, in Lean 4, of the per-frame transform
pipeline of the engine: the bump-pointer frame arena, the worker-count
resolution and row-band partition of the frame orchestrator, the 3x3 Sobel
gradient and ramp classification of the tile processor, the gamma lookup
table, the saturation/brightness stages of the glyph compositor, and the
byte-count accounting of the console renderer.

Modelling conventions:
* C `float` arithmetic is modelled by exact rational arithmetic over `ℚ`.
  All decimal constants of the source (`0.299f`, `2.41421356f`, ...) are
  taken at their exact decimal value.  For the gamma table the exact-real
  value of `powf((float)i/255.0f, 1.0f/2.2f) * 255.0f` is
  `255 * (i/255)^(5/11)`, and its truncation to an integer is characterised
  by eleventh powers; this agrees with the single-precision computation of
  the source at every one of the 256 table entries.
* C casts from floating point to an integer type truncate toward zero; the
  values cast in the engine are non-negative, so they are modelled by the
  rational floor taken into `ℕ`.
* Machine integers (`int`, `size_t`) are modelled by `ℤ`/`ℕ`.  Where a
  `size_t` computation of the source can wrap — the arena's request
  rounding and fit check — the wrap is modelled explicitly with `% 2^64`;
  the remaining modelled computations stay far below every wrap-around
  boundary for the inputs the claims quantify over.
* The packed-RGB pixel buffer (data pointer plus row stride) is modelled
  abstractly by a pixel access function; row strides are a memory-layout
  detail below the granularity of the claims.
-/

namespace AsciiEngine

/-! ## Frame arena (`arena_init` / `arena_alloc` / `arena_reset`) -/

/-- The arena state: backing capacity and high-water mark.
Mirrors `struct { void* start; size_t size; size_t used; } Arena`
(the `start` pointer is a memory-layout detail; allocations are modelled
as offsets from it). -/
structure Arena where
  size : ℕ
  used : ℕ
  deriving Repr, DecidableEq

/-- The modulus of `size_t` arithmetic (64-bit). -/
def size_t_mod : ℕ := 2 ^ 64

/-- Models `size = (size + 15) & ~15;` with `size_t` semantics: the
addition wraps modulo `2^64`, then the mask clears the low four bits, so
the masked form equals `(s + 15) % 2^64 / 16 * 16`.  Below the wrap
boundary this rounds the request up to the next multiple of 16; for
`s > 2^64 - 16` it wraps to 0. -/
def align16 (s : ℕ) : ℕ := (s + 15) % size_t_mod / 16 * 16

/-- Models `arena_alloc`: returns the offset of the allocation (the C code returns
`start + used`) together with the updated arena, or `none` with the arena
unchanged when the fit check `a->used + size > a->size` fails the request.
Both the fit check's sum and the update of `used` are `size_t` additions
and wrap modulo `2^64`. -/
def arena_alloc (a : Arena) (s : ℕ) : Option ℕ × Arena :=
  let s' := align16 s
  if (a.used + s') % size_t_mod > a.size then (none, a)
  else (some a.used, { a with used := (a.used + s') % size_t_mod })

/-- Models `arena_reset`: `a->used = 0;` -/
def arena_reset (a : Arena) : Arena := { a with used := 0 }

/-! ## Worker-count resolution (`engine_init`, lines 191–196) -/

/-- Computes `ctx->num_threads` as `engine_init` does: the configured count
when positive, otherwise the detected on-line processor count, with a
floor of 1. -/
def resolve_num_threads (configured detected : ℤ) : ℤ :=
  if configured > 0 then configured
  else if detected ≤ 0 then 1 else detected

/-! ## Row-band partition (`engine_process_frame_to_ascii`, lines 379–387) -/

/-- Models `rows_per_thread = ctx->ascii_height / ctx->num_threads;` -/
def rows_per_thread (h n : ℕ) : ℕ := h / n

/-- Models `args->start_row = i * rows_per_thread;` -/
def start_row (h n i : ℕ) : ℕ := i * rows_per_thread h n

/-- Models `args->end_row = (i == ctx->num_threads - 1) ? ctx->ascii_height
                                                 : (i + 1) * rows_per_thread;` -/
def end_row (h n i : ℕ) : ℕ :=
  if i = n - 1 then h else (i + 1) * rows_per_thread h n

/-! ### Partition facts (helper lemmas shared by several claims) -/

theorem start_row_le_end_row {h n : ℕ} {i : ℕ} (hi : i < n) :
    start_row h n i ≤ end_row h n i := by
  unfold start_row end_row
  split
  · rename_i hlast
    subst hlast
    calc (n - 1) * rows_per_thread h n ≤ n * rows_per_thread h n :=
          Nat.mul_le_mul_right _ (Nat.sub_le n 1)
      _ = h / n * n := by unfold rows_per_thread; ring
      _ ≤ h := Nat.div_mul_le_self h n
  · exact Nat.mul_le_mul_right _ (Nat.le_succ i)

theorem end_row_le (h n : ℕ) {i : ℕ} (hi : i < n) :
    end_row h n i ≤ h := by
  unfold end_row
  split
  · exact le_rfl
  · calc (i + 1) * rows_per_thread h n ≤ n * rows_per_thread h n :=
        Nat.mul_le_mul_right _ hi
    _ = h / n * n := by unfold rows_per_thread; ring
    _ ≤ h := Nat.div_mul_le_self h n

theorem end_row_eq_start_row_succ (h n : ℕ) {i : ℕ} (hi : i + 1 < n) :
    end_row h n i = start_row h n (i + 1) := by
  unfold end_row start_row
  rw [if_neg]
  omega

/-- Every row below `h` lies in the band of some worker index below `n`. -/
theorem exists_band {h n : ℕ} (hn : 1 ≤ n) {j : ℕ} (hj : j < h) :
    ∃ i, i < n ∧ start_row h n i ≤ j ∧ j < end_row h n i := by
  set r := rows_per_thread h n with hr
  have hqr : j / r * r ≤ j := Nat.div_mul_le_self j r
  by_cases hcase : j / r < n - 1 ∧ 0 < r
  · obtain ⟨hq, hrpos⟩ := hcase
    have hmod : r * (j / r) + j % r = j := Nat.div_add_mod j r
    have hltr : j % r < r := Nat.mod_lt j hrpos
    refine ⟨j / r, Nat.lt_of_lt_of_le hq (Nat.sub_le n 1), ?_, ?_⟩
    · show j / r * r ≤ j
      exact hqr
    · show j < if j / r = n - 1 then h else (j / r + 1) * r
      rw [if_neg (Nat.ne_of_lt hq)]
      calc j = r * (j / r) + j % r := hmod.symm
        _ < r * (j / r) + r := Nat.add_lt_add_left hltr _
        _ = (j / r + 1) * r := by ring
  · refine ⟨n - 1, by omega, ?_, ?_⟩
    · show (n - 1) * r ≤ j
      rcases Nat.eq_zero_or_pos r with h0 | hrpos
      · simp [h0]
      · have hq : n - 1 ≤ j / r :=
          Nat.le_of_not_lt fun hlt => hcase ⟨hlt, hrpos⟩
        calc (n - 1) * r ≤ j / r * r := Nat.mul_le_mul_right _ hq
          _ ≤ j := hqr
    · show j < if n - 1 = n - 1 then h else (n - 1 + 1) * r
      rw [if_pos rfl]
      exact hj

/-- Bands with smaller index end no later than later bands start. -/
theorem end_row_le_start_row {h n : ℕ} {i₁ i₂ : ℕ} (h12 : i₁ < i₂) (h2 : i₂ < n) :
    end_row h n i₁ ≤ start_row h n i₂ := by
  unfold end_row start_row
  rw [if_neg (by omega)]
  exact Nat.mul_le_mul_right _ (by omega)

/-- A row belongs to the band of at most one worker. -/
theorem band_unique {h n : ℕ} {j i₁ i₂ : ℕ}
    (h1 : i₁ < n) (h2 : i₂ < n)
    (m1 : start_row h n i₁ ≤ j ∧ j < end_row h n i₁)
    (m2 : start_row h n i₂ ≤ j ∧ j < end_row h n i₂) : i₁ = i₂ := by
  by_contra hne
  rcases Nat.lt_or_ge i₁ i₂ with hlt | hge
  · have := end_row_le_start_row hlt h2 (h := h)
    omega
  · have hlt : i₂ < i₁ := by omega
    have := end_row_le_start_row hlt h1 (h := h)
    omega

/-! ## Lookup tables (`init_luts`) -/

/-- The flat-brightness ramp, byte for byte (`flat_ramp` in `init_luts`). -/
def flat_ramp : List ℕ :=
  [96, 46, 45, 39, 58, 95, 44, 94, 61, 59, 62, 60, 43, 33, 114, 99, 42, 47,
   122, 63, 115, 76, 84, 118, 41, 74, 55, 40, 124, 70, 105, 123, 67, 125,
   102, 73, 51, 49, 116, 108, 117, 91, 110, 101, 111, 90, 53, 89, 120, 106,
   121, 97, 93, 50, 69, 83, 119, 113, 107, 80, 54, 104, 57, 100, 52, 86,
   112, 79, 71, 98, 85, 65, 75, 88, 72, 109, 56, 82, 68, 35, 36, 66, 103,
   48, 77, 78, 87, 81, 37, 38, 64]

/-- Models `const int flat_ramp_len = 90;` -/
def flat_ramp_len : ℕ := 90

/-- The ramp `"|¦"` as bytes (the UTF-8 source encodes `¦` as two bytes). -/
def vertical_ramp : List ℕ := [124, 194, 166]

def vertical_ramp_len : ℕ := 2

/-- The ramp `"-="` as bytes. -/
def horizontal_ramp : List ℕ := [45, 61]

def horizontal_ramp_len : ℕ := 2

/-- The ramp `"\\_"` as bytes. -/
def diagonal1_ramp : List ℕ := [92, 95]

def diagonal1_ramp_len : ℕ := 2

/-- The ramp `"/_"` as bytes. -/
def diagonal2_ramp : List ℕ := [47, 95]

def diagonal2_ramp_len : ℕ := 2

/-- The ramp index `(int)(br * (len - 1))` with `br = (float)i / 255.0f`.
The single-precision computation agrees with the exact value
`⌊i * (len - 1) / 255⌋` at every `i ∈ [0, 255]` for the ramp lengths used. -/
def ramp_index (i len : ℕ) : ℕ := i * (len - 1) / 255

/-- Models `ctx->char_lut_flat[i] = flat_ramp[(int)(br * (flat_ramp_len - 1))];` -/
def char_lut_flat (i : ℕ) : ℕ := flat_ramp.getD (ramp_index i flat_ramp_len) 0

def char_lut_vert (i : ℕ) : ℕ :=
  vertical_ramp.getD (ramp_index i vertical_ramp_len) 0

def char_lut_horz (i : ℕ) : ℕ :=
  horizontal_ramp.getD (ramp_index i horizontal_ramp_len) 0

def char_lut_diag1 (i : ℕ) : ℕ :=
  diagonal1_ramp.getD (ramp_index i diagonal1_ramp_len) 0

def char_lut_diag2 (i : ℕ) : ℕ :=
  diagonal2_ramp.getD (ramp_index i diagonal2_ramp_len) 0

/-- Models `ctx->gamma_lut[i] = (uint8_t)(powf((float)i / 255.0f, 1.0f / 2.2f) * 255.0f);`

The exact real value of the expression is `v = 255 * (i/255)^(5/11)`
(since `1/2.2 = 5/11`), and the C cast truncates it.  `v` satisfies
`v^11 = 255^6 * i^5`, so `⌊v⌋` is the greatest `k ≤ 255` with
`k^11 ≤ 255^6 * i^5`.  (The single-precision evaluation of the source
agrees with this exact truncation at all 256 entries.) -/
def gamma_lut (i : ℕ) : ℕ :=
  Nat.findGreatest (fun k => k ^ 11 ≤ 255 ^ 6 * i ^ 5) 255

/-! ## Tile processor (`process_slice_worker`) -/

/-- Models `0.299f * p[0] + 0.587f * p[1] + 0.114f * p[2]`. -/
def luma (r g b : ℕ) : ℚ := (299 * r + 587 * g + 114 * b) / 1000

/-- The boundary clamp of the sampling loop:
`sx = (sx < 0) ? 0 : (sx >= width ? width - 1 : sx);` -/
def clamp_coord (v n : ℤ) : ℤ :=
  if v < 0 then 0 else if v ≥ n then n - 1 else v

/-- Models `const int sobel_x[3][3] = {{1, 0, -1}, {2, 0, -2}, {1, 0, -1}};`
indexed as `sobel_x[ky + 1][kx + 1]`. -/
def sobel_x (ky kx : ℤ) : ℤ :=
  (if kx = -1 then 1 else if kx = 1 then -1 else 0) *
    (if ky = 0 then 2 else 1)

/-- Models `const int sobel_y[3][3] = {{1, 2, 1}, {0, 0, 0}, {-1, -2, -1}};`
indexed as `sobel_y[ky + 1][kx + 1]`. -/
def sobel_y (ky kx : ℤ) : ℤ :=
  (if ky = -1 then 1 else if ky = 1 then -1 else 0) *
    (if kx = 0 then 2 else 1)

/-- A decoded source frame: the packed-RGB buffer is modelled by a pixel
access function returning the `(R, G, B)` bytes at a coordinate. -/
structure SourceFrame where
  width : ℕ
  height : ℕ
  pixel : ℕ → ℕ → ℕ × ℕ × ℕ

/-- The luma of the clamped sample at `(sx, sy)`:
the body of the 3x3 loop up to the `luma` computation. -/
def sample_luma (f : SourceFrame) (sx sy : ℤ) : ℚ :=
  let cx := (clamp_coord sx f.width).toNat
  let cy := (clamp_coord sy f.height).toNat
  let p := f.pixel cx cy
  luma p.1 p.2.1 p.2.2

/-- The nine kernel offsets `(ky, kx)` of the two nested sampling loops. -/
def window_offsets : List (ℤ × ℤ) :=
  [(-1, -1), (-1, 0), (-1, 1), (0, -1), (0, 0), (0, 1), (1, -1), (1, 0), (1, 1)]

/-- Models `gx += luma * sobel_x[ky + 1][kx + 1];` accumulated over the window. -/
def grad_x (f : SourceFrame) (cx cy : ℤ) : ℚ :=
  (window_offsets.map fun o =>
    sample_luma f (cx + o.2) (cy + o.1) * (sobel_x o.1 o.2 : ℚ)).sum

/-- Models `gy += luma * sobel_y[ky + 1][kx + 1];` accumulated over the window. -/
def grad_y (f : SourceFrame) (cx cy : ℤ) : ℚ :=
  (window_offsets.map fun o =>
    sample_luma f (cx + o.2) (cy + o.1) * (sobel_y o.1 o.2 : ℚ)).sum

/-- The C cast `(uint8_t)center_luma` on the non-negative luma value. -/
def luma_byte (q : ℚ) : ℕ := (⌊q⌋).toNat

/-- The threshold constant `const float D_THRESH = 2.41421356f;`. -/
def D_THRESH : ℚ := 241421356 / 100000000

/-- The glyph chosen from the gradient, threshold and brightness index:
lines 448–466 of `process_slice_worker`, with
`mag_sq = (gx*gx + gy*gy) / (255.0f*255.0f)` and
`edge_strength_sq = config->edge_strength * config->edge_strength`. -/
def selected_char (gx gy edge_strength : ℚ) (brightness_idx : ℕ) : ℕ :=
  let mag_sq := (gx * gx + gy * gy) / (255 * 255)
  let edge_strength_sq := edge_strength * edge_strength
  if mag_sq < edge_strength_sq then
    char_lut_flat brightness_idx
  else
    if |gy| > |gx| * D_THRESH then
      char_lut_vert brightness_idx
    else if |gx| > |gy| * D_THRESH then
      char_lut_horz brightness_idx
    else if gx * gy > 0 then
      char_lut_diag1 brightness_idx
    else
      char_lut_diag2 brightness_idx

/-- Models `source_x = (int)((float)x / ctx->ascii_width * width);` -/
def source_coord (x aw n : ℕ) : ℕ := x * n / aw

/-- The full per-cell computation of `process_slice_worker`: the selected
character byte together with the representative color, a point sample of
the source pixel at the mapped coordinate. -/
def cell_value (f : SourceFrame) (aw ah : ℕ) (edge_strength : ℚ) (x y : ℕ) :
    ℕ × (ℕ × ℕ × ℕ) :=
  let sx := source_coord x aw f.width
  let sy := source_coord y ah f.height
  let gx := grad_x f sx sy
  let gy := grad_y f sx sy
  let center := sample_luma f sx sy
  let brightness_idx := gamma_lut (luma_byte center)
  (selected_char gx gy edge_strength brightness_idx, f.pixel sx sy)

/-! ## Specification-side definitions for comparison -/

/-- The five character ramps, named. -/
inductive RampKind
  | flat
  | vert
  | horz
  | diag1
  | diag2
  deriving DecidableEq, Repr

/-- The character taken from a given ramp at a brightness index. -/
def ramp_char : RampKind → ℕ → ℕ
  | .flat => char_lut_flat
  | .vert => char_lut_vert
  | .horz => char_lut_horz
  | .diag1 => char_lut_diag1
  | .diag2 => char_lut_diag2

/-- The five-way classification in the words of the specification:
flat iff `mag_sq = (gx^2 + gy^2)/255^2` is strictly below `edge_strength^2`;
otherwise vertical if `|gy| > |gx| * D` (strict), else horizontal if
`|gx| > |gy| * D` (strict), else diagonal-1 when `gx * gy > 0` and
diagonal-2 when `gx * gy ≤ 0`. -/
def classify_spec (gx gy edge_strength : ℚ) : RampKind :=
  if (gx ^ 2 + gy ^ 2) / 255 ^ 2 < edge_strength ^ 2 then .flat
  else if |gy| > |gx| * D_THRESH then .vert
  else if |gx| > |gy| * D_THRESH then .horz
  else if gx * gy > 0 then .diag1
  else .diag2

/-- Modelled from the spec: the gamma entry as the specification words it,
`round(255 * (i/255)^(1/2.2))`, the gamma-corrected value rounded to the
nearest integer.  With `v = 255 * (i/255)^(5/11)` the rounded value
`⌊v + 1/2⌋` is the greatest `k ≤ 255` with `2k - 1 ≤ 2v`, i.e. with
`(2k - 1)^11 ≤ 2^11 * 255^6 * i^5`. -/
def gamma_round_spec (i : ℕ) : ℕ :=
  Nat.findGreatest (fun k => (2 * k - 1) ^ 11 ≤ 2 ^ 11 * (255 ^ 6 * i ^ 5)) 255

/-- A vertical black/white half-split source image: the left half of the
columns is black, the right half white. -/
def half_split_frame : SourceFrame where
  width := 8
  height := 8
  pixel := fun x _ => if x < 4 then (0, 0, 0) else (255, 255, 255)

/-! ## Frame orchestrator control flow
(`engine_process_frame_to_ascii`, lines 363–394) -/

/-- Control-flow model of `engine_process_frame_to_ascii`: reset the arena,
allocate the character buffer (`aw * ah` bytes) and the color buffer
(`aw * ah * 3` bytes); if either allocation failed, report the error and do
no further work (`none`); otherwise partition the rows and launch one
worker per band (`some` of the list of `(start_row, end_row)` bands). -/
def process_frame_bands (a : Arena) (aw ah n : ℕ) :
    Option (List (ℕ × ℕ)) :=
  let a1 := arena_reset a
  let r1 := arena_alloc a1 (aw * ah)
  let r2 := arena_alloc r1.2 (aw * ah * 3)
  if r1.1.isNone ∨ r2.1.isNone then none
  else some ((List.range n).map fun i => (start_row ah n i, end_row ah n i))

/-! ## Output-buffer writes of the workers

Each worker fills the slice of the character and color buffers for its row
band; a buffer is modelled as a map from `art_idx = y * ascii_width + x` to
the written value, and the frame result as the effect of all workers'
writes on an initially unwritten buffer. -/

/-- Applies a list of indexed writes to a buffer, in order. -/
def apply_writes {α : Type} (init : ℕ → Option α) :
    List (ℕ × α) → (ℕ → Option α)
  | [] => init
  | (i, v) :: rest => apply_writes (Function.update init i (some v)) rest

/-- The writes of one worker over its band `[start_r, end_r)`:
for each cell, the character and color of `cell_value` at index
`art_idx = y * ascii_width + x`. -/
def worker_writes (f : SourceFrame) (aw ah : ℕ) (es : ℚ)
    (start_r end_r : ℕ) : List (ℕ × (ℕ × (ℕ × ℕ × ℕ))) :=
  (List.range' start_r (end_r - start_r)).flatMap fun y =>
    (List.range aw).map fun x => (y * aw + x, cell_value f aw ah es x y)

/-- The combined writes of the `n` workers spawned for one frame, band by
band. -/
def frame_writes (f : SourceFrame) (aw ah : ℕ) (es : ℚ) (n : ℕ) :
    List (ℕ × (ℕ × (ℕ × ℕ × ℕ))) :=
  (List.range n).flatMap fun i =>
    worker_writes f aw ah es (start_row ah n i) (end_row ah n i)

/-- The character/color output of a full frame processed by `n` workers:
the writes of all bands applied to an unwritten buffer. -/
def frame_output (f : SourceFrame) (aw ah : ℕ) (es : ℚ) (n : ℕ) :
    ℕ → Option (ℕ × (ℕ × ℕ × ℕ)) :=
  apply_writes (fun _ => none) (frame_writes f aw ah es n)

/-! ## Glyph compositor color adjustment (`render_ascii_to_buffer`) -/

/-- The clamped cast
`(r_f > 255.0f) ? 255 : ((r_f < 0) ? 0 : (unsigned char)r_f)`. -/
def clamp_byte (q : ℚ) : ℕ :=
  if q > 255 then 255 else if q < 0 then 0 else luma_byte q

/-- The saturation stage, lines 531–539: skipped entirely (the colors kept
verbatim) when `saturation_factor` equals `1.0`; otherwise each channel is
moved away from the luma by the factor and clamped. -/
def apply_saturation (saturation_factor : ℚ) (r g b : ℕ) : ℕ × ℕ × ℕ :=
  if saturation_factor ≠ 1 then
    let l := luma r g b
    let r_f := l + saturation_factor * (r - l)
    let g_f := l + saturation_factor * (g - l)
    let b_f := l + saturation_factor * (b - l)
    (clamp_byte r_f, clamp_byte g_f, clamp_byte b_f)
  else (r, g, b)

/-- The brightness stage, lines 541–547: each channel multiplied by the
factor and clamped above at 255 (the source has no lower clamp here). -/
def apply_brightness (brightness_factor : ℚ) (c : ℕ × ℕ × ℕ) : ℕ × ℕ × ℕ :=
  let r_f := (c.1 : ℚ) * brightness_factor
  let g_f := (c.2.1 : ℚ) * brightness_factor
  let b_f := (c.2.2 : ℚ) * brightness_factor
  ((if r_f > 255 then 255 else luma_byte r_f),
   (if g_f > 255 then 255 else luma_byte g_f),
   (if b_f > 255 then 255 else luma_byte b_f))

/-- The composed per-cell color adjustment of the glyph compositor:
saturation first, then brightness. -/
def composited_color (saturation_factor brightness_factor : ℚ)
    (r g b : ℕ) : ℕ × ℕ × ℕ :=
  apply_brightness brightness_factor (apply_saturation saturation_factor r g b)

/-! ## Console renderer byte accounting (`engine_render_to_console`) -/

/-- Number of characters `sprintf` emits for `%d` on a byte value. -/
def decimal_len (n : ℕ) : ℕ :=
  if n < 10 then 1 else if n < 100 then 2 else 3

/-- Bytes emitted for one cell: with color, the truecolor escape
`"\x1b[38;2;R;G;Bm"` (7 fixed bytes, the three decimal channel values,
two inner semicolons and the final letter) plus the cell character;
without color, the bare character. -/
def cell_bytes (use_color : Bool) (c : Fin 256 × Fin 256 × Fin 256) : ℕ :=
  if use_color then
    11 + decimal_len c.1.val + decimal_len c.2.1.val + decimal_len c.2.2.val
  else 1

/-- Total bytes written by `engine_render_to_console` into the frame
buffer: all cells row by row, one newline per row, one final NUL. -/
def console_bytes (aw ah : ℕ) (use_color : Bool)
    (color : ℕ → Fin 256 × Fin 256 × Fin 256) : ℕ :=
  (∑ y ∈ Finset.range ah,
    ((∑ x ∈ Finset.range aw, cell_bytes use_color (color (y * aw + x))) + 1)) + 1

/-- Models `size_t full_buffer_size = (size_t)(ctx->ascii_width * 20 + 2) * ctx->ascii_height;` -/
def console_buffer_size (aw ah : ℕ) : ℕ := (aw * 20 + 2) * ah

/-! ## Claim theorems -/

/-- C2: for every cell, glyph selection follows exactly the five-way
classification: the flat ramp iff `mag_sq = (gx^2 + gy^2)/255^2` is
strictly below `edge_strength^2`; otherwise the vertical ramp if
`|gy| > |gx| * D` (strict), else the horizontal ramp if `|gx| > |gy| * D`
(strict), else diagonal-1 when `gx * gy > 0` and diagonal-2 when
`gx * gy ≤ 0`, with `D = 2.41421356`. -/
theorem c2_selection_follows_classification
    (gx gy edge_strength : ℚ) (brightness_idx : ℕ) :
    selected_char gx gy edge_strength brightness_idx =
      ramp_char (classify_spec gx gy edge_strength) brightness_idx := by
  have h1 : gx * gx + gy * gy = gx ^ 2 + gy ^ 2 := by ring
  have h2 : edge_strength * edge_strength = edge_strength ^ 2 := by ring
  have h3 : (255 * 255 : ℚ) = 255 ^ 2 := by norm_num
  simp only [selected_char, classify_spec, h1, h2, h3]
  split_ifs <;> rfl

/-- C3 counterexample: the table entry at brightness 3 is the truncated
value 33, while rounding `255 * (3/255)^(1/2.2) ≈ 33.85` as the claim
states would give 34. -/
theorem c3_rounding_counterexample :
    gamma_lut 3 = 33 ∧ gamma_round_spec 3 = 34 ∧
      gamma_lut 3 ≠ gamma_round_spec 3 :=
  ⟨by decide, by decide, by decide⟩

/-- Instantiation helper: when the predicate holds at 0, it holds at the
greatest index found. -/
theorem findGreatest_spec_zero (p : ℕ → Prop) [DecidablePred p] (b : ℕ)
    (h0 : p 0) : p (Nat.findGreatest p b) :=
  Nat.findGreatest_spec (Nat.zero_le b) h0

/-- Instantiation helper: the predicate fails just above the greatest
index found, when that index is not the search bound. -/
theorem findGreatest_succ_not (p : ℕ → Prop) [DecidablePred p] (b : ℕ)
    (h : Nat.findGreatest p b < b) : ¬ p (Nat.findGreatest p b + 1) :=
  Nat.findGreatest_is_greatest (Nat.lt_succ_self _) (by omega)

/-- C3 (amended): for every brightness level `i` in `[0, 255]`, the gamma
entry equals the gamma-corrected value TRUNCATED (not rounded) to an
integer: `gamma_lut i` is the unique `k` with
`k^11 ≤ 255^6 * i^5 < (k + 1)^11`, i.e. `⌊255 * (i/255)^(1/2.2)⌋`. -/
theorem c3_gamma_truncation (i : ℕ) (hi : i ≤ 255) :
    gamma_lut i ≤ 255 ∧
    gamma_lut i ^ 11 ≤ 255 ^ 6 * i ^ 5 ∧
    255 ^ 6 * i ^ 5 < (gamma_lut i + 1) ^ 11 := by
  have hle : gamma_lut i ≤ 255 := Nat.findGreatest_le 255
  have hspec : gamma_lut i ^ 11 ≤ 255 ^ 6 * i ^ 5 :=
    findGreatest_spec_zero (fun k => k ^ 11 ≤ 255 ^ 6 * i ^ 5) 255 (by simp)
  refine ⟨hle, hspec, ?_⟩
  rcases Nat.lt_or_ge (gamma_lut i) 255 with hlt | hge
  · have hng :=
      findGreatest_succ_not (fun k => k ^ 11 ≤ 255 ^ 6 * i ^ 5) 255 hlt
    exact Nat.lt_of_not_le hng
  · have hg : gamma_lut i = 255 := le_antisymm hle hge
    rw [hg]
    calc 255 ^ 6 * i ^ 5 ≤ 255 ^ 6 * 255 ^ 5 :=
          Nat.mul_le_mul_left _ (Nat.pow_le_pow_left hi 5)
      _ = 255 ^ 11 := by ring
      _ < 256 ^ 11 := Nat.pow_lt_pow_left (by norm_num) (by norm_num)

/-- Witness for C3 (amended) at `i = 128`. -/
theorem c3_gamma_truncation_witness :
    gamma_lut 128 ≤ 255 ∧
    gamma_lut 128 ^ 11 ≤ 255 ^ 6 * 128 ^ 5 ∧
    255 ^ 6 * 128 ^ 5 < (gamma_lut 128 + 1) ^ 11 :=
  c3_gamma_truncation 128 (by norm_num)

/-- C5: every sample coordinate read by the 3x3 Sobel window is clamped by
edge replication into `[0, width) x [0, height)`, for every mapped center
coordinate (borders included): the clamped coordinates `sample_luma` reads
are always inside the valid source rectangle. -/
theorem c5_window_clamped (f : SourceFrame) (hw : 0 < f.width)
    (hh : 0 < f.height) (cx cy : ℤ) :
    ∀ o ∈ window_offsets,
      (0 ≤ clamp_coord (cx + o.2) f.width ∧
        clamp_coord (cx + o.2) f.width < f.width) ∧
      (0 ≤ clamp_coord (cy + o.1) f.height ∧
        clamp_coord (cy + o.1) f.height < f.height) ∧
      (clamp_coord (cx + o.2) f.width).toNat < f.width ∧
      (clamp_coord (cy + o.1) f.height).toNat < f.height := by
  have key : ∀ v n : ℤ, 0 < n → 0 ≤ clamp_coord v n ∧ clamp_coord v n < n := by
    intro v n hn
    unfold clamp_coord
    split_ifs <;> omega
  intro o _
  have hwz : (0 : ℤ) < f.width := by exact_mod_cast hw
  have hhz : (0 : ℤ) < f.height := by exact_mod_cast hh
  have kx := key (cx + o.2) f.width hwz
  have ky := key (cy + o.1) f.height hhz
  exact ⟨kx, ky, by omega, by omega⟩

/-- Witness for C5: the window corner offset `(-1, -1)` at the top-left
border cell of the half-split frame. -/
theorem c5_window_clamped_witness :
    (0 ≤ clamp_coord ((0 : ℤ) + (-1, -1).2) half_split_frame.width ∧
      clamp_coord ((0 : ℤ) + (-1, -1).2) half_split_frame.width <
        half_split_frame.width) ∧
    (0 ≤ clamp_coord ((0 : ℤ) + (-1, -1).1) half_split_frame.height ∧
      clamp_coord ((0 : ℤ) + (-1, -1).1) half_split_frame.height <
        half_split_frame.height) ∧
    (clamp_coord ((0 : ℤ) + (-1, -1).2) half_split_frame.width).toNat <
      half_split_frame.width ∧
    (clamp_coord ((0 : ℤ) + (-1, -1).1) half_split_frame.height).toNat <
      half_split_frame.height :=
  c5_window_clamped half_split_frame (by norm_num [half_split_frame])
    (by norm_num [half_split_frame]) 0 0 (-1, -1)
    (by norm_num [window_offsets])

/-- C6 counterexample: `size_t` wrap-around defeats the claimed contract.
A request of `2^64 - 1` bytes wraps `(size + 15) & ~15` to 0, so against
the engine's fresh 64 MiB arena the allocation SUCCEEDS with a non-null
zero-byte view although the rounded request does not fit in the remaining
capacity (this request is reachable as `(size_t)aw * ah` with a negative
height); and a 16-aligned request of `2^64 - 16` bytes against a 64-byte
arena with 48 bytes used wraps the fit check, SUCCEEDS, and SHRINKS the
used mark from 48 to 32 — instead of returning null and leaving the arena
unchanged as the claim requires. -/
theorem c6_wrap_counterexample :
    align16 (2 ^ 64 - 1) = 0 ∧
    arena_alloc ⟨67108864, 0⟩ (2 ^ 64 - 1) = (some 0, ⟨67108864, 0⟩) ∧
    67108864 - 0 < 2 ^ 64 - 1 ∧
    arena_alloc ⟨64, 48⟩ (2 ^ 64 - 16) = (some 48, ⟨64, 32⟩) ∧
    64 - 48 < 2 ^ 64 - 16 :=
  ⟨by decide, by decide, by decide, by decide, by decide⟩

/-- C6 (amended): below the `size_t` wrap boundary — whenever the used
mark plus the rounded request stays below `2^64` — `arena_alloc` rounds
the request up to the next multiple of 16 and returns the offset view
exactly when the rounded size fits in the remaining capacity, leaving the
arena unchanged when it does not; and `arena_reset` rewinds the used mark
to zero, after which the full capacity is available again. -/
theorem c6_arena_contract :
    (∀ s : ℕ, s + 15 < 2 ^ 64 →
      16 ∣ align16 s ∧ s ≤ align16 s ∧ align16 s < s + 16) ∧
    (∀ (a : Arena) (s : ℕ), a.used + align16 s < 2 ^ 64 →
      (a.used + align16 s ≤ a.size →
        arena_alloc a s = (some a.used, ⟨a.size, a.used + align16 s⟩)) ∧
      (a.size < a.used + align16 s → arena_alloc a s = (none, a))) ∧
    (∀ a : Arena, arena_reset a = ⟨a.size, 0⟩ ∧
      (arena_reset a).size - (arena_reset a).used = a.size) := by
  refine ⟨fun s hs => ?_, fun a s hsum => ⟨fun hfit => ?_, fun hover => ?_⟩,
    fun a => ⟨rfl, by simp [arena_reset]⟩⟩
  · unfold align16 size_t_mod
    rw [Nat.mod_eq_of_lt hs]
    exact ⟨⟨(s + 15) / 16, by ring⟩, by omega, by omega⟩
  · have hmod : (a.used + align16 s) % size_t_mod = a.used + align16 s := by
      unfold size_t_mod
      exact Nat.mod_eq_of_lt hsum
    simp only [arena_alloc, hmod]
    rw [if_neg (by omega)]
  · have hmod : (a.used + align16 s) % size_t_mod = a.used + align16 s := by
      unfold size_t_mod
      exact Nat.mod_eq_of_lt hsum
    simp only [arena_alloc, hmod]
    rw [if_pos (by omega)]

/-- Witness for C6 (amended): a fitting allocation of 20 bytes (rounded to
32) in a fresh 64-byte arena, and an overflowing one in a nearly full
arena, both far below the wrap boundary. -/
theorem c6_arena_contract_witness :
    arena_alloc ⟨64, 0⟩ 20 = (some 0, ⟨64, 32⟩) ∧
    arena_alloc ⟨64, 60⟩ 20 = (none, ⟨64, 60⟩) :=
  ⟨(c6_arena_contract.2.1 ⟨64, 0⟩ 20 (by norm_num [align16, size_t_mod])).1
     (by norm_num [align16, size_t_mod]),
   (c6_arena_contract.2.1 ⟨64, 60⟩ 20 (by norm_num [align16, size_t_mod])).2
     (by norm_num [align16, size_t_mod])⟩

/-- C8 (refuting evidence): zero output height is not rejected.  The only
guard in `engine_process_frame_to_ascii` is the allocation null check;
with `ascii_height = 0` both buffer sizes are 0, both arena allocations
succeed, no error is reported, and the row partition is performed and the
workers launched (with empty bands). -/
theorem c8_zero_height_not_rejected :
    process_frame_bands ⟨64 * 1024 * 1024, 0⟩ 120 0 4 =
      some [(0, 0), (0, 0), (0, 0), (0, 0)] ∧
    (process_frame_bands ⟨64 * 1024 * 1024, 0⟩ 120 0 4).isSome = true :=
  ⟨by decide, by decide⟩

/-- C9: when `saturation_factor` equals 1.0 the saturation adjustment is
the identity on every cell color, and every RGB triple reaches the
brightness stage unchanged. -/
theorem c9_saturation_one_identity (r g b : ℕ) (brightness_factor : ℚ) :
    apply_saturation 1 r g b = (r, g, b) ∧
    composited_color 1 brightness_factor r g b =
      apply_brightness brightness_factor (r, g, b) := by
  have h : apply_saturation 1 r g b = (r, g, b) := by
    simp [apply_saturation]
  exact ⟨h, by simp [composited_color, h]⟩

/-- C4: for every output height and every worker count `n ≥ 1` (and the
resolved worker count is always at least 1), the `n` row bands are
contiguous, pairwise disjoint, cover `[0, h)` exactly once, every band but
the last has size `⌊h / n⌋`, the last band absorbs the remainder (it ends
exactly at `h`), and when `h < n` every band but the last is empty. -/
theorem c4_band_partition :
    (∀ configured detected : ℤ, 1 ≤ resolve_num_threads configured detected) ∧
    (∀ configured detected : ℤ, 0 < configured →
      resolve_num_threads configured detected = configured) ∧
    ∀ h n : ℕ, 1 ≤ n →
      (∀ i, i < n → start_row h n i ≤ end_row h n i ∧ end_row h n i ≤ h) ∧
      (∀ i, i + 1 < n → end_row h n i = start_row h n (i + 1)) ∧
      (∀ i, i + 1 < n → end_row h n i - start_row h n i = h / n) ∧
      end_row h n (n - 1) = h ∧
      (∀ j, j < h → ∃! i, i < n ∧ start_row h n i ≤ j ∧ j < end_row h n i) ∧
      (h < n → ∀ i, i + 1 < n → start_row h n i = end_row h n i) := by
  refine ⟨?_, ?_, ?_⟩
  · intro c d
    unfold resolve_num_threads
    split_ifs <;> omega
  · intro c d hc
    unfold resolve_num_threads
    rw [if_pos hc]
  · intro h n hn
    refine ⟨fun i hi => ⟨start_row_le_end_row hi, end_row_le h n hi⟩,
      fun i hi => end_row_eq_start_row_succ h n hi,
      fun i hi => ?_, ?_, fun j hj => ?_, fun hlt i hi => ?_⟩
    · show end_row h n i - start_row h n i = h / n
      unfold end_row start_row
      rw [if_neg (by omega : ¬ i = n - 1)]
      have hrtp : rows_per_thread h n = h / n := rfl
      rw [← hrtp]
      have hsplit : (i + 1) * rows_per_thread h n =
          i * rows_per_thread h n + rows_per_thread h n := by ring
      rw [hsplit, Nat.add_sub_cancel_left]
    · show end_row h n (n - 1) = h
      unfold end_row
      rw [if_pos rfl]
    · obtain ⟨i, hi, hmem⟩ := exists_band hn hj
      refine ⟨i, ⟨hi, hmem⟩, ?_⟩
      rintro i' ⟨hi', hmem'⟩
      exact band_unique hi' hi hmem' hmem
    · show start_row h n i = end_row h n i
      unfold start_row end_row rows_per_thread
      rw [if_neg (by omega : ¬ i = n - 1), Nat.div_eq_of_lt hlt]
      simp

/-- Witness for C4 at `h = 5`, `n = 2`: the last band ends at 5, the first
band has size `⌊5 / 2⌋ = 2`, and the resolved count for a non-positive
configuration and a failed detection is 1. -/
theorem c4_band_partition_witness :
    1 ≤ resolve_num_threads 0 (-3) ∧
    resolve_num_threads 6 2 = 6 ∧
    end_row 5 2 (2 - 1) = 5 ∧
    end_row 5 2 0 - start_row 5 2 0 = 5 / 2 :=
  ⟨c4_band_partition.1 0 (-3),
   c4_band_partition.2.1 6 2 (by norm_num),
   (c4_band_partition.2.2 5 2 (by norm_num)).2.2.2.1,
   (c4_band_partition.2.2 5 2 (by norm_num)).2.2.1 0 (by norm_num)⟩

/-- C10: for every grid with positive dimensions and arbitrary cell colors,
the console renderer writes at most `(ascii_width * 20 + 2) * ascii_height`
bytes — at most 20 bytes per cell, one newline per row and one final NUL —
so it never writes past its arena-allocated output buffer. -/
theorem c10_console_buffer_bound (aw ah : ℕ) (use_color : Bool)
    (color : ℕ → Fin 256 × Fin 256 × Fin 256)
    (_hw : 1 ≤ aw) (hh : 1 ≤ ah) :
    console_bytes aw ah use_color color ≤ console_buffer_size aw ah := by
  have hd : ∀ m : ℕ, decimal_len m ≤ 3 := by
    intro m
    unfold decimal_len
    split_ifs <;> omega
  have hcell : ∀ c : Fin 256 × Fin 256 × Fin 256,
      cell_bytes use_color c ≤ 20 := by
    intro c
    unfold cell_bytes
    split
    · have h1 := hd c.1.val
      have h2 := hd c.2.1.val
      have h3 := hd c.2.2.val
      omega
    · omega
  have hrow : ∀ y : ℕ,
      (∑ x ∈ Finset.range aw, cell_bytes use_color (color (y * aw + x))) + 1 ≤
        20 * aw + 1 := by
    intro y
    have hs : (∑ x ∈ Finset.range aw, cell_bytes use_color (color (y * aw + x))) ≤
        aw * 20 := by
      calc (∑ x ∈ Finset.range aw, cell_bytes use_color (color (y * aw + x)))
          ≤ (Finset.range aw).card • 20 :=
            Finset.sum_le_card_nsmul _ _ 20 (fun x _ => hcell _)
        _ = aw * 20 := by simp [Finset.card_range]
    omega
  have htot : (∑ y ∈ Finset.range ah,
      ((∑ x ∈ Finset.range aw, cell_bytes use_color (color (y * aw + x))) + 1)) ≤
        ah * (20 * aw + 1) := by
    calc (∑ y ∈ Finset.range ah,
        ((∑ x ∈ Finset.range aw, cell_bytes use_color (color (y * aw + x))) + 1))
        ≤ (Finset.range ah).card • (20 * aw + 1) :=
          Finset.sum_le_card_nsmul _ _ _ (fun y _ => hrow y)
      _ = ah * (20 * aw + 1) := by simp [Finset.card_range]
  unfold console_bytes console_buffer_size
  calc (∑ y ∈ Finset.range ah,
      ((∑ x ∈ Finset.range aw, cell_bytes use_color (color (y * aw + x))) + 1)) + 1
      ≤ ah * (20 * aw + 1) + 1 := Nat.add_le_add_right htot 1
    _ ≤ ah * (20 * aw + 1) + ah := Nat.add_le_add_left hh _
    _ = (aw * 20 + 2) * ah := by ring

/-- Witness for C10 on a 1x1 colored grid. -/
theorem c10_console_buffer_bound_witness :
    console_bytes 1 1 true (fun _ => (255, 0, 128)) ≤
      console_buffer_size 1 1 :=
  c10_console_buffer_bound 1 1 true (fun _ => (255, 0, 128))
    (le_refl 1) (le_refl 1)

/-! ### Buffer-write lemmas for C7 -/

/-- Writes that never touch an index leave the buffer unchanged there. -/
theorem apply_writes_not_mem {α : Type} (idx : ℕ) :
    ∀ (ws : List (ℕ × α)), (∀ p ∈ ws, p.1 ≠ idx) →
      ∀ init : ℕ → Option α, apply_writes init ws idx = init idx := by
  intro ws
  induction ws with
  | nil => intro _ init; rfl
  | cons p t ih =>
    intro h init
    obtain ⟨i, v⟩ := p
    have hi : i ≠ idx := h (i, v) (List.mem_cons_self _ _)
    show apply_writes (Function.update init i (some v)) t idx = init idx
    rw [ih (fun q hq => h q (List.mem_cons_of_mem _ hq)) _]
    exact Function.update_noteq (Ne.symm hi) _ _

/-- If an index is written, and every write at that index carries the same
value, then after all writes the buffer holds that value there — whatever
order the writes are applied in. -/
theorem apply_writes_mem_unique {α : Type} (idx : ℕ) (v : α) :
    ∀ (ws : List (ℕ × α)), (idx, v) ∈ ws →
      (∀ p ∈ ws, p.1 = idx → p.2 = v) →
      ∀ init : ℕ → Option α, apply_writes init ws idx = some v := by
  intro ws
  induction ws with
  | nil => intro h; cases h
  | cons p t ih =>
    intro hmem huniq init
    obtain ⟨i, u⟩ := p
    show apply_writes (Function.update init i (some u)) t idx = some v
    by_cases ht : ∀ q ∈ t, q.1 ≠ idx
    · have hhead : i = idx ∧ u = v := by
        rcases List.mem_cons.mp hmem with heq | htl
        · obtain ⟨h1, h2⟩ := Prod.mk.injEq .. ▸ heq
          exact ⟨h1.symm, h2.symm⟩
        · exact absurd rfl (ht (idx, v) htl)
      obtain ⟨hi, hu⟩ := hhead
      rw [apply_writes_not_mem idx t ht _, hi, hu]
      exact Function.update_same _ _ _
    · push_neg at ht
      obtain ⟨q, hq, hq1⟩ := ht
      have hq2 : q.2 = v := huniq q (List.mem_cons_of_mem _ hq) hq1
      have hqv : q = (idx, v) := by
        obtain ⟨q1, q2⟩ := q
        simp only at hq1 hq2
        rw [hq1, hq2]
      exact ih (hqv ▸ hq) (fun p hp h1 => huniq p (List.mem_cons_of_mem _ hp) h1)
        (Function.update init i (some u))

/-- Row-major cell indices are injective on the grid. -/
theorem grid_index_inj {aw x x' y y' : ℕ} (hx : x < aw) (hx' : x' < aw)
    (h : y' * aw + x' = y * aw + x) : y' = y ∧ x' = x := by
  have hy : y' = y := by
    rcases lt_trichotomy y' y with hlt | heq | hgt
    · exfalso
      have h1 : y' * aw + x' < (y' + 1) * aw := by
        have hexp : (y' + 1) * aw = y' * aw + aw := by ring
        omega
      have h2 : (y' + 1) * aw ≤ y * aw := Nat.mul_le_mul_right _ hlt
      omega
    · exact heq
    · exfalso
      have h1 : y * aw + x < (y + 1) * aw := by
        have hexp : (y + 1) * aw = y * aw + aw := by ring
        omega
      have h2 : (y + 1) * aw ≤ y' * aw := Nat.mul_le_mul_right _ hgt
      omega
  subst hy
  exact ⟨rfl, by omega⟩

/-- Every valid cell index is written by the frame's workers, exactly
once, and always with the same per-cell value: the bands partition the
rows, and within a band each cell is visited once. -/
theorem frame_writes_facts (f : SourceFrame) (aw ah : ℕ) (es : ℚ)
    (n x y : ℕ) (hn : 1 ≤ n) (hx : x < aw) (hy : y < ah) :
    (y * aw + x, cell_value f aw ah es x y) ∈ frame_writes f aw ah es n ∧
    ∀ p ∈ frame_writes f aw ah es n, p.1 = y * aw + x →
      p.2 = cell_value f aw ah es x y := by
  constructor
  · obtain ⟨i, hi, hs, he⟩ := exists_band hn hy
    unfold frame_writes
    apply List.mem_flatMap.mpr
    refine ⟨i, List.mem_range.mpr hi, ?_⟩
    unfold worker_writes
    apply List.mem_flatMap.mpr
    refine ⟨y, ?_, List.mem_map.mpr ⟨x, List.mem_range.mpr hx, rfl⟩⟩
    apply List.mem_range'_1.mpr
    have hse := start_row_le_end_row hi (h := ah)
    omega
  · rintro ⟨idx, u⟩ hp heq
    unfold frame_writes at hp
    obtain ⟨i, hi, hp2⟩ := List.mem_flatMap.mp hp
    unfold worker_writes at hp2
    obtain ⟨y', hy', hp3⟩ := List.mem_flatMap.mp hp2
    obtain ⟨x', hx', hp4⟩ := List.mem_map.mp hp3
    have hx'lt : x' < aw := List.mem_range.mp hx'
    obtain ⟨h1, h2⟩ := Prod.mk.injEq .. ▸ hp4
    simp only at heq
    rw [← h1] at heq
    obtain ⟨hyy, hxx⟩ := grid_index_inj hx hx'lt heq
    rw [← h2, hyy, hxx]

/-- Each valid cell of the processed frame holds exactly the pure per-cell
value. -/
theorem frame_output_cell (f : SourceFrame) (aw ah : ℕ) (es : ℚ)
    (n x y : ℕ) (hn : 1 ≤ n) (hx : x < aw) (hy : y < ah) :
    frame_output f aw ah es n (y * aw + x) =
      some (cell_value f aw ah es x y) :=
  apply_writes_mem_unique (y * aw + x) (cell_value f aw ah es x y)
    (frame_writes f aw ah es n)
    (frame_writes_facts f aw ah es n x y hn hx hy).1
    (frame_writes_facts f aw ah es n x y hn hx hy).2
    (fun _ => none)

/-- C7: the per-frame transform is a pure function of its inputs: every
valid cell of the output holds exactly `cell_value` (no dependence on the
worker count or on the order the workers' disjoint writes land), so
processing the same frame twice with the same configuration yields
byte-identical character and color buffers. -/
theorem c7_frame_output_pure (f : SourceFrame) (aw ah : ℕ) (es : ℚ)
    (n : ℕ) (x y : ℕ) (hn : 1 ≤ n) (hx : x < aw) (hy : y < ah) :
    frame_output f aw ah es n (y * aw + x) =
      some (cell_value f aw ah es x y) ∧
    (∀ m : ℕ, 1 ≤ m →
      frame_output f aw ah es n (y * aw + x) =
        frame_output f aw ah es m (y * aw + x)) ∧
    (∀ ws : List (ℕ × (ℕ × (ℕ × ℕ × ℕ))),
      ws.Perm (frame_writes f aw ah es n) →
        apply_writes (fun _ => none) ws (y * aw + x) =
          some (cell_value f aw ah es x y)) := by
  refine ⟨frame_output_cell f aw ah es n x y hn hx hy,
    fun m hm => ?_, fun ws hperm => ?_⟩
  · rw [frame_output_cell f aw ah es n x y hn hx hy,
      frame_output_cell f aw ah es m x y hm hx hy]
  · exact apply_writes_mem_unique (y * aw + x) (cell_value f aw ah es x y) ws
      (hperm.mem_iff.mpr (frame_writes_facts f aw ah es n x y hn hx hy).1)
      (fun p hp h1 =>
        (frame_writes_facts f aw ah es n x y hn hx hy).2 p (hperm.subset hp) h1)
      (fun _ => none)

/-- Witness for C7: the top-left cell of the half-split frame processed
with two workers. -/
theorem c7_frame_output_pure_witness :
    frame_output half_split_frame 8 8 (2 / 5) 2 (0 * 8 + 0) =
      some (cell_value half_split_frame 8 8 (2 / 5) 0 0) :=
  (c7_frame_output_pure half_split_frame 8 8 (2 / 5) 2 0 0 (by norm_num)
    (by norm_num) (by norm_num)).1

/-- C1 (refuting evidence, code bug): on a vertical black/white half-split
source image the cell straddling the boundary column has gradient
`gx = -1020`, `gy = 0` — `gy` vanishes and `|gx|` dominates — it is
classified as an edge cell, and the code takes its glyph from the
HORIZONTAL ramp (`char_lut_horz`, the `-=` characters), not from the
vertical ramp as the claim (and the spec's stated intent that the glyph
match the edge line's orientation) requires. -/
theorem c1_half_split_boundary_uses_horizontal_ramp :
    grad_x half_split_frame 4 4 = -1020 ∧
    grad_y half_split_frame 4 4 = 0 ∧
    classify_spec (-1020) 0 (2 / 5) = RampKind.horz ∧
    RampKind.horz ≠ RampKind.vert ∧
    cell_value half_split_frame 8 8 (2 / 5) 4 4 =
      (char_lut_horz 255, (255, 255, 255)) ∧
    char_lut_horz 255 ≠ char_lut_vert 255 := by
  refine ⟨?_, ?_, ?_, by decide, ?_, by decide⟩
  · norm_num [grad_x, window_offsets, sample_luma, clamp_coord,
      half_split_frame, luma, sobel_x]
  · norm_num [grad_y, window_offsets, sample_luma, clamp_coord,
      half_split_frame, luma, sobel_y]
  · unfold classify_spec D_THRESH
    norm_num
  · have hgx : grad_x half_split_frame (source_coord 4 8 half_split_frame.width)
        (source_coord 4 8 half_split_frame.height) = -1020 := by
      norm_num [grad_x, window_offsets, sample_luma, clamp_coord,
        half_split_frame, luma, sobel_x, source_coord]
    have hgy : grad_y half_split_frame (source_coord 4 8 half_split_frame.width)
        (source_coord 4 8 half_split_frame.height) = 0 := by
      norm_num [grad_y, window_offsets, sample_luma, clamp_coord,
        half_split_frame, luma, sobel_y, source_coord]
    have hc : sample_luma half_split_frame (source_coord 4 8 half_split_frame.width)
        (source_coord 4 8 half_split_frame.height) = 255 := by
      norm_num [sample_luma, clamp_coord, half_split_frame, luma, source_coord]
    have hsel : selected_char (-1020) 0 (2 / 5) 255 = char_lut_horz 255 := by
      unfold selected_char D_THRESH
      norm_num
    simp only [cell_value]
    rw [hgx, hgy, hc]
    have hlb : luma_byte 255 = 255 := by simp [luma_byte]
    rw [hlb]
    have hg255 : gamma_lut 255 = 255 := by decide
    rw [hg255, hsel]
    simp [half_split_frame, source_coord]

end AsciiEngine
